import Mathlib

/-!
# Verification of the MetamorphLLM core against its specification

This file embeds, in Lean, the data model and operations of the
MetamorphLLM repository that the specification's claims are about:

* a model of the Go abstract syntax tree (`GoNode`) sufficient for the
  constructs traversed by `internal/metrics/metrics.go` and
  `internal/rewriter/rewriter.go`,
* the complexity analyzer (`calculateCyclomaticComplexity`,
  `calculateCognitiveComplexity`, `countFunctions`), translated from
  `internal/metrics/metrics.go`, with `go/ast.Inspect` modelled as a
  pre-order enumeration of the tree (the order in which `ast.Walk`
  visits nodes),
* the rewrite strategies (`FunctionCommentStrategy.Rewrite`,
  `LLMStrategy.Rewrite`) and the engine (`Rewriter.RewriteContent`)
  from `internal/rewriter/rewriter.go`, with the external collaborators
  (the Go parser/printer and the LLM service) passed in as oracle
  functions,
* the promotion pipeline stages of the `Manager`
  (`RunRewriter`, `CompileRewritten`, `RunTests`) and `dryRunProcess`
  from `cmd/manager/main.go`, over an explicit file-system state
  (`FS := String → Option String`), with renames modelled with POSIX
  overwrite semantics (`os.Rename` replaces an existing destination);
  the external `rewriter` binary's effect follows its entry point
  (`cmd/rewriter/main.go`): invoked with `-input` only, it writes its
  output to `<input> + ".rewritten.go"`.

Machine integers do not occur on any modelled path; complexity
counters are Go `int`s and are modelled as `Int` (this matters: the
cyclomatic visitor adds `len(list) - 1`, which is `-1` for an empty
switch body).
-/

namespace Metamorph

/-! ## Go AST model

One untyped node type, mirroring how `go/ast` passes nodes around as
interface values.  Only fields that `ast.Walk` descends into and that
the analysed code inspects are kept; fields holding only type syntax
(receivers, parameter types, …) are kept as plain data on
`funcDecl` because the rewriter's signature invariant is about them.
-/

/-- Binary operator token; the metrics only distinguish `&&` (LAND) and
`||` (LOR) from everything else. -/
inductive BinOp where
  | land
  | lor
  | other
deriving DecidableEq, Repr

/-- Branch statement token (`go/token`): the cognitive-complexity walk
counts BREAK, CONTINUE and GOTO but not FALLTHROUGH. -/
inductive BranchTok where
  | breakTok
  | continueTok
  | gotoTok
  | fallthroughTok
deriving DecidableEq, Repr

/-- A function signature: named parameters with their type text and the
list of result type texts.  `ast.FuncType` carries more structure, but
the rewriter never reads into it — it only ever leaves it untouched. -/
structure FuncSig where
  params : List (String × String)
  results : List String
deriving DecidableEq, Repr

/-- Model of the `go/ast` node types that the repository's code
traverses.  `doc` on `funcDecl` is the `Doc` comment group, one string
per `ast.Comment`. -/
inductive GoNode where
  | file (decls : List GoNode)
  | funcDecl (name : String) (recv : Option (String × String)) (sig : FuncSig)
      (doc : List String) (body : Option GoNode)
  | genDecl (text : String)
  | block (stmts : List GoNode)
  | ifS (init : Option GoNode) (cond : GoNode) (body : GoNode) (els : Option GoNode)
  | forS (init : Option GoNode) (cond : Option GoNode) (post : Option GoNode) (body : GoNode)
  | rangeS (key : Option GoNode) (value : Option GoNode) (x : GoNode) (body : GoNode)
  | switchS (init : Option GoNode) (tag : Option GoNode) (body : GoNode)
  | typeSwitchS (init : Option GoNode) (assign : GoNode) (body : GoNode)
  | selectS (body : GoNode)
  | caseClause (exprs : List GoNode) (stmts : List GoNode)
  | commClause (comm : Option GoNode) (stmts : List GoNode)
  | branchS (tok : BranchTok)
  | returnS (results : List GoNode)
  | exprStmt (x : GoNode)
  | assignS (lhs : List GoNode) (rhs : List GoNode)
  | binary (op : BinOp) (x y : GoNode)
  | call (fn : GoNode) (args : List GoNode)
  | funcLit (body : GoNode)
  | ident (name : String)
  | basicLit (val : String)
deriving Repr

/-! ### `ast.Inspect` as a pre-order enumeration

`ast.Inspect(f, fn)` calls `fn` on every node in the order `ast.Walk`
visits them (each node before its children, children in field order).
`allNodes` is that visit sequence. -/

mutual

/-- All nodes of a tree in `ast.Walk` pre-order. -/
def allNodes : GoNode → List GoNode
  | .file ds => .file ds :: allNodesL ds
  | .funcDecl n r s d b => .funcDecl n r s d b :: allNodesO b
  | .genDecl t => [.genDecl t]
  | .block ss => .block ss :: allNodesL ss
  | .ifS i c b e => .ifS i c b e :: (allNodesO i ++ allNodes c ++ allNodes b ++ allNodesO e)
  | .forS i c p b => .forS i c p b :: (allNodesO i ++ allNodesO c ++ allNodesO p ++ allNodes b)
  | .rangeS k v x b => .rangeS k v x b :: (allNodesO k ++ allNodesO v ++ allNodes x ++ allNodes b)
  | .switchS i t b => .switchS i t b :: (allNodesO i ++ allNodesO t ++ allNodes b)
  | .typeSwitchS i a b => .typeSwitchS i a b :: (allNodesO i ++ allNodes a ++ allNodes b)
  | .selectS b => .selectS b :: allNodes b
  | .caseClause es ss => .caseClause es ss :: (allNodesL es ++ allNodesL ss)
  | .commClause c ss => .commClause c ss :: (allNodesO c ++ allNodesL ss)
  | .branchS t => [.branchS t]
  | .returnS rs => .returnS rs :: allNodesL rs
  | .exprStmt x => .exprStmt x :: allNodes x
  | .assignS l r => .assignS l r :: (allNodesL l ++ allNodesL r)
  | .binary op x y => .binary op x y :: (allNodes x ++ allNodes y)
  | .call f as => .call f as :: (allNodes f ++ allNodesL as)
  | .funcLit b => .funcLit b :: allNodes b
  | .ident s => [.ident s]
  | .basicLit v => [.basicLit v]

def allNodesL : List GoNode → List GoNode
  | [] => []
  | n :: ns => allNodes n ++ allNodesL ns

def allNodesO : Option GoNode → List GoNode
  | none => []
  | some n => allNodes n

end

/-! ### Node identity

The cognitive-complexity pass keys a map by node identity
(`nestingLevels map[ast.Node]int`) and compares Go pointers
(`node.Body == blockNode`).  Distinct nodes of a parsed tree are
distinct pointers; we model identity by the node's *path* from the
root: one path component per field slot, plus an index inside list
fields.  `preNodes` is the same pre-order visit sequence as
`allNodes`, with each node labelled by its path. -/

abbrev NPath := List Nat

mutual

/-- Pre-order visit sequence with node paths (field slot numbers; list
elements get an extra index component). -/
def preNodes : NPath → GoNode → List (NPath × GoNode)
  | p, .file ds => (p, .file ds) :: preNodesL (p ++ [0]) 0 ds
  | p, .funcDecl n r s d b => (p, .funcDecl n r s d b) :: preNodesO (p ++ [0]) b
  | p, .genDecl t => [(p, .genDecl t)]
  | p, .block ss => (p, .block ss) :: preNodesL (p ++ [0]) 0 ss
  | p, .ifS i c b e =>
      (p, .ifS i c b e) ::
        (preNodesO (p ++ [0]) i ++ preNodes (p ++ [1]) c ++ preNodes (p ++ [2]) b ++
          preNodesO (p ++ [3]) e)
  | p, .forS i c po b =>
      (p, .forS i c po b) ::
        (preNodesO (p ++ [0]) i ++ preNodesO (p ++ [1]) c ++ preNodesO (p ++ [2]) po ++
          preNodes (p ++ [3]) b)
  | p, .rangeS k v x b =>
      (p, .rangeS k v x b) ::
        (preNodesO (p ++ [0]) k ++ preNodesO (p ++ [1]) v ++ preNodes (p ++ [2]) x ++
          preNodes (p ++ [3]) b)
  | p, .switchS i t b =>
      (p, .switchS i t b) ::
        (preNodesO (p ++ [0]) i ++ preNodesO (p ++ [1]) t ++ preNodes (p ++ [2]) b)
  | p, .typeSwitchS i a b =>
      (p, .typeSwitchS i a b) ::
        (preNodesO (p ++ [0]) i ++ preNodes (p ++ [1]) a ++ preNodes (p ++ [2]) b)
  | p, .selectS b => (p, .selectS b) :: preNodes (p ++ [0]) b
  | p, .caseClause es ss =>
      (p, .caseClause es ss) :: (preNodesL (p ++ [0]) 0 es ++ preNodesL (p ++ [1]) 0 ss)
  | p, .commClause c ss =>
      (p, .commClause c ss) :: (preNodesO (p ++ [0]) c ++ preNodesL (p ++ [1]) 0 ss)
  | p, .branchS t => [(p, .branchS t)]
  | p, .returnS rs => (p, .returnS rs) :: preNodesL (p ++ [0]) 0 rs
  | p, .exprStmt x => (p, .exprStmt x) :: preNodes (p ++ [0]) x
  | p, .assignS l r =>
      (p, .assignS l r) :: (preNodesL (p ++ [0]) 0 l ++ preNodesL (p ++ [1]) 0 r)
  | p, .binary op x y =>
      (p, .binary op x y) :: (preNodes (p ++ [0]) x ++ preNodes (p ++ [1]) y)
  | p, .call f as => (p, .call f as) :: (preNodes (p ++ [0]) f ++ preNodesL (p ++ [1]) 0 as)
  | p, .funcLit b => (p, .funcLit b) :: preNodes (p ++ [0]) b
  | p, .ident s => [(p, .ident s)]
  | p, .basicLit v => [(p, .basicLit v)]

def preNodesL : NPath → Nat → List GoNode → List (NPath × GoNode)
  | _, _, [] => []
  | base, i, n :: ns => preNodes (base ++ [i]) n ++ preNodesL base (i + 1) ns

def preNodesO : NPath → Option GoNode → List (NPath × GoNode)
  | _, none => []
  | p, some n => preNodes p n

end

/-! ## Complexity analyzer (`internal/metrics/metrics.go`) -/

/-- Contribution of one visited node in `calculateCyclomaticComplexity`'s
`ast.Inspect` callback.  The dispatch cases translate
`complexity += len(node.Body.List) - 1; if len(node.Body.List) == 0 { complexity++ }`
(Go `int` arithmetic, hence `Int`). -/
def cycContribution : GoNode → Int
  | .ifS _ _ _ _ => 1
  | .forS _ _ _ _ => 1
  | .rangeS _ _ _ _ => 1
  | .binary op _ _ => if op = .land ∨ op = .lor then 1 else 0
  | .switchS _ _ (.block ss) =>
      ((ss.length : Int) - 1) + (if ss.length = 0 then 1 else 0)
  | .typeSwitchS _ _ (.block ss) =>
      ((ss.length : Int) - 1) + (if ss.length = 0 then 1 else 0)
  | .selectS (.block ss) =>
      ((ss.length : Int) - 1) + (if ss.length = 0 then 1 else 0)
  | _ => 0

/-- `calculateCyclomaticComplexity`: start at 1, add every visited
node's contribution. -/
def calculateCyclomaticComplexity (f : GoNode) : Int :=
  (allNodes f).foldl (fun acc n => acc + cycContribution n) 1

/-- `isControlFlowParent(parentNode, blockNode)` returns whether
`blockNode` is `parentNode`'s `Body` (a pointer comparison).  Here the
parent is identified by its path `q`, the block by its path `p`:
the block is the construct's `Body` exactly when `p` is the body-slot
path under `q`.  `bodySlotPath` gives that path per construct kind. -/
def bodySlotPath (q : NPath) : GoNode → NPath
  | .ifS _ _ _ _ => q ++ [2]
  | .forS _ _ _ _ => q ++ [3]
  | .rangeS _ _ _ _ => q ++ [3]
  | .switchS _ _ _ => q ++ [2]
  | .typeSwitchS _ _ _ => q ++ [2]
  | .selectS _ => q ++ [0]
  | _ => q

/-- The node kinds matched by the first `ast.Inspect` of
`calculateCognitiveComplexity` (`IfStmt, ForStmt, RangeStmt,
SwitchStmt, TypeSwitchStmt, SelectStmt`). -/
def isBranchConstruct : GoNode → Bool
  | .ifS _ _ _ _ => true
  | .forS _ _ _ _ => true
  | .rangeS _ _ _ _ => true
  | .switchS _ _ _ => true
  | .typeSwitchS _ _ _ => true
  | .selectS _ => true
  | _ => false

/-- Go map read `nestingLevels[node]` — 0 when the key is absent —
keyed by node path. -/
def lookupLevel : List (NPath × Nat) → NPath → Nat
  | [], _ => 0
  | (k, v) :: rest, q => if k = q then v else lookupLevel rest q

/-- One step of the first pass of `calculateCognitiveComplexity`:
branching constructs record `nestingLevels[node] =
nestingLevels[top-of-stack] + 1` (0 for an empty stack — Go map reads
default to 0) and are pushed; a `BlockStmt` pops the stack when it is
the `Body` of the construct on top (`isControlFlowParent`).  The stack
holds `(construct path, its body path)`. -/
def cogPass1Step (st : List (NPath × NPath) × List (NPath × Nat)) (pn : NPath × GoNode) :
    List (NPath × NPath) × List (NPath × Nat) :=
  let (stack, levels) := st
  let (p, n) := pn
  if isBranchConstruct n then
    let level : Nat :=
      match stack with
      | [] => 0
      | (q, _) :: _ => lookupLevel levels q + 1
    ((p, bodySlotPath p n) :: stack, (p, level) :: levels)
  else
    match n with
    | .block _ =>
        match stack with
        | (_, bp) :: rest => if bp = p then (rest, levels) else (stack, levels)
        | [] => st
    | _ => st

/-- The `nestingLevels` map computed by the first pass, keyed by node
path. -/
def nestingLevels (f : GoNode) : List (NPath × Nat) :=
  ((preNodes [] f).foldl cogPass1Step ([], [])).2

/-- Number of statements in a construct's body block (`len(Body.List)`,
used for the case-arm counts). -/
def blockLen : GoNode → Nat
  | .block ss => ss.length
  | _ => 0

/-- Contribution of one visited node in the second `ast.Inspect` of
`calculateCognitiveComplexity`; `lookupLevel levels p` is the
`nestingLevels[node]` read in the construct cases. -/
def cogContribution (levels : List (NPath × Nat)) (p : NPath) : GoNode → Int
  | .ifS _ _ _ e => 1 + (lookupLevel levels p : Int) + (if e.isSome then 1 else 0)
  | .forS _ _ _ _ => 1 + (lookupLevel levels p : Int)
  | .rangeS _ _ _ _ => 1 + (lookupLevel levels p : Int)
  | .switchS _ _ b =>
      1 + (lookupLevel levels p : Int) +
        (if 0 < blockLen b then (blockLen b : Int) - 1 else 0)
  | .typeSwitchS _ _ b =>
      1 + (lookupLevel levels p : Int) +
        (if 0 < blockLen b then (blockLen b : Int) - 1 else 0)
  | .selectS b =>
      1 + (lookupLevel levels p : Int) +
        (if 0 < blockLen b then (blockLen b : Int) - 1 else 0)
  | .binary op _ _ => if op = .land ∨ op = .lor then 1 else 0
  | .branchS t =>
      if t = .breakTok ∨ t = .continueTok ∨ t = .gotoTok then 1 else 0
  | .exprStmt (.call (.funcLit _) _) => 1
  | _ => 0

/-- `calculateCognitiveComplexity`: the first pass computes
`nestingLevels`, the second adds every node's contribution. -/
def calculateCognitiveComplexity (f : GoNode) : Int :=
  let levels := nestingLevels f
  (preNodes [] f).foldl (fun acc pn => acc + cogContribution levels pn.1 pn.2) 0

/-- Whether a node is a `*ast.FuncDecl`. -/
def isFuncDeclNode : GoNode → Bool
  | .funcDecl _ _ _ _ _ => true
  | _ => false

/-- `countFunctions`: number of `FuncDecl` nodes `ast.Inspect`
encounters. -/
def countFunctions (f : GoNode) : Nat :=
  (allNodes f).countP isFuncDeclNode

/-! ## Rewrite strategies (`internal/rewriter/rewriter.go`) -/

mutual

/-- `FunctionCommentStrategy.Rewrite`'s mutation: `ast.Inspect` appends
one `ast.Comment` with the strategy's text to every `FuncDecl`'s `Doc`
group (creating the group when absent — with `doc : List String`,
both arms are `d ++ [m]`). -/
def addMarkerN (m : String) : GoNode → GoNode
  | .file ds => .file (addMarkerL m ds)
  | .funcDecl n r s d b => .funcDecl n r s (d ++ [m]) (addMarkerO m b)
  | .genDecl t => .genDecl t
  | .block ss => .block (addMarkerL m ss)
  | .ifS i c b e => .ifS (addMarkerO m i) (addMarkerN m c) (addMarkerN m b) (addMarkerO m e)
  | .forS i c p b => .forS (addMarkerO m i) (addMarkerO m c) (addMarkerO m p) (addMarkerN m b)
  | .rangeS k v x b => .rangeS (addMarkerO m k) (addMarkerO m v) (addMarkerN m x) (addMarkerN m b)
  | .switchS i t b => .switchS (addMarkerO m i) (addMarkerO m t) (addMarkerN m b)
  | .typeSwitchS i a b => .typeSwitchS (addMarkerO m i) (addMarkerN m a) (addMarkerN m b)
  | .selectS b => .selectS (addMarkerN m b)
  | .caseClause es ss => .caseClause (addMarkerL m es) (addMarkerL m ss)
  | .commClause c ss => .commClause (addMarkerO m c) (addMarkerL m ss)
  | .branchS t => .branchS t
  | .returnS rs => .returnS (addMarkerL m rs)
  | .exprStmt x => .exprStmt (addMarkerN m x)
  | .assignS l r => .assignS (addMarkerL m l) (addMarkerL m r)
  | .binary op x y => .binary op (addMarkerN m x) (addMarkerN m y)
  | .call f as => .call (addMarkerN m f) (addMarkerL m as)
  | .funcLit b => .funcLit (addMarkerN m b)
  | .ident s => .ident s
  | .basicLit v => .basicLit v

def addMarkerL (m : String) : List GoNode → List GoNode
  | [] => []
  | n :: ns => addMarkerN m n :: addMarkerL m ns

def addMarkerO (m : String) : Option GoNode → Option GoNode
  | none => none
  | some n => some (addMarkerN m n)

end

/-- `FunctionCommentStrategy.Rewrite`: mutates the tree as above and
reports `functionsRewritten`, which `ast.Inspect` sets iff it visits at
least one `FuncDecl`.  It never returns an error. -/
def FunctionCommentStrategy_Rewrite (marker : String) (f : GoNode) :
    (Bool × GoNode) × Option String :=
  (((allNodes f).any isFuncDeclNode, addMarkerN marker f), none)

/-- The first `*ast.FuncDecl` among a parsed fragment's top-level
declarations (the loop over `rewrittenFile.Decls` in
`LLMStrategy.Rewrite`). -/
def firstFuncDecl : GoNode → Option GoNode
  | .file ds => ds.find? isFuncDeclNode
  | _ => none

/-- Body of a `funcDecl` (`rewrittenFunc.Body`; `none` for a
declaration without body, which Go would assign as a nil body). -/
def funcBody : GoNode → Option GoNode
  | .funcDecl _ _ _ _ b => b
  | _ => none

/-- The loop body of `LLMStrategy.Rewrite` over `f.Decls`, carrying the
`functionsRewritten` flag.  External collaborators are oracles:
`pf` is `getFunctionSource` (the sub-print via `go/printer`), `llm` is
`callGeminiLLM`, `parse` is `ASTHandler.ParseContent` on the service's
answer.  A `getFunctionSource` or `callGeminiLLM` failure returns
`(false, err)` immediately, leaving the remaining declarations
unprocessed (earlier in-place mutations persist); an unparsable
response or a response without a function declaration only annotates
the original declaration and continues. -/
def llmDecls (pf : GoNode → Except String String) (llm : String → Except String String)
    (parse : String → Except String GoNode) (comment : String) :
    Bool → List GoNode → (Bool × List GoNode) × Option String
  | changed, [] => ((changed, []), none)
  | changed, d :: ds =>
    match d with
    | .funcDecl name recv sig doc (some body) =>
      match pf (.funcDecl name recv sig doc (some body)) with
      | .error e =>
          ((false, .funcDecl name recv sig doc (some body) :: ds),
            some ("failed to extract function source for " ++ name ++ ": " ++ e))
      | .ok functionSource =>
        match llm functionSource with
        | .error e =>
            ((false, .funcDecl name recv sig doc (some body) :: ds),
              some ("failed to rewrite function " ++ name ++ ": " ++ e))
        | .ok rewrittenSource =>
          if rewrittenSource = functionSource then
            let d' := GoNode.funcDecl name recv sig
              (doc ++ [comment ++ " (analyzed but no changes required)"]) (some body)
            let r := llmDecls pf llm parse comment true ds
            ((r.1.1, d' :: r.1.2), r.2)
          else
            match parse rewrittenSource with
            | .error e =>
                let d' := GoNode.funcDecl name recv sig
                  (doc ++ ["// Failed to parse rewritten function code: " ++ e]) (some body)
                let r := llmDecls pf llm parse comment changed ds
                ((r.1.1, d' :: r.1.2), r.2)
            | .ok rewrittenFile =>
              match firstFuncDecl rewrittenFile with
              | none =>
                  let d' := GoNode.funcDecl name recv sig
                    (doc ++ ["// Failed to find function in the rewritten code"]) (some body)
                  let r := llmDecls pf llm parse comment changed ds
                  ((r.1.1, d' :: r.1.2), r.2)
              | some rewrittenFunc =>
                  let d' := GoNode.funcDecl name recv sig (doc ++ [comment])
                    (funcBody rewrittenFunc)
                  let r := llmDecls pf llm parse comment true ds
                  ((r.1.1, d' :: r.1.2), r.2)
    | other =>
        let r := llmDecls pf llm parse comment changed ds
        ((r.1.1, other :: r.1.2), r.2)

/-- `LLMStrategy.Rewrite`: iterates the file's top-level declarations,
skipping non-functions and functions without a body. -/
def LLMStrategy_Rewrite (pf : GoNode → Except String String)
    (llm : String → Except String String) (parse : String → Except String GoNode)
    (comment : String) : GoNode → (Bool × GoNode) × Option String
  | .file ds =>
      let r := llmDecls pf llm parse comment false ds
      ((r.1.1, .file r.1.2), r.2)
  | n => ((false, n), none)

/-! ## Rewrite engine (`Rewriter.RewriteContent`)

The Go parser and printer are oracles; a strategy is any function of
the strategy interface's shape (`(changed, mutated tree), error`). -/

/-- `Rewriter.RewriteContent`, returning `(text, error)`.  Every
failure mode is converted into the original content plus an appended
comment, with a `nil` error. -/
def RewriteContent (parse : String → Except String GoNode)
    (strategy : GoNode → (Bool × GoNode) × Option String)
    (print : GoNode → Except String String) (content : String) :
    String × Option String :=
  match parse content with
  | .error e => (content ++ "\n\n// Failed to parse code for rewriting: " ++ e ++ "\n", none)
  | .ok f =>
    match strategy f with
    | (_, some e) => (content ++ "\n\n// Error during rewriting: " ++ e ++ "\n", none)
    | ((rewritten, f'), none) =>
      if !rewritten then
        (content ++ "\n\n// No changes made by the MetamorphLLM\n", none)
      else
        match print f' with
        | .error e =>
            (content ++ "\n\n// Failed to print rewritten code: " ++ e ++ "\n", none)
        | .ok result =>
            let resultWithTag := "// +build rewritten\n\n" ++ result
            if result = content then
              (content ++ "\n\n// Processed by MetamorphLLM (no changes needed)\n", none)
            else
              (resultWithTag, none)

/-! ## Promotion pipeline (`internal/manager`, `cmd/manager/main.go`)

File-system state: a map from path to file content.  `os.Rename` fails
when the source does not exist and silently replaces an existing
destination (POSIX `rename`); directories and permissions are outside
the model (`os.MkdirAll` always succeeds). -/

/-- File system: path to content. -/
def FS : Type := String → Option String

/-- Write/overwrite (`v = some c`) or remove (`v = none`) a path. -/
def fsSet (fs : FS) (p : String) (v : Option String) : FS :=
  fun q => if q = p then v else fs q

/-- Successful `os.Stat`. -/
def statExists (fs : FS) (p : String) : Bool :=
  (fs p).isSome

/-- `os.Rename`: `none` is the error case (missing source). -/
def rename (fs : FS) (src dst : String) : Option FS :=
  match fs src with
  | none => none
  | some c => some (fsSet (fsSet fs src none) dst (some c))

/-- A rename whose error is discarded (`_ = os.Rename(...)`). -/
def tryRename (fs : FS) (src dst : String) : FS :=
  (rename fs src dst).getD fs

/-- Split a character list at every `'/'`. -/
def splitOnSlash : List Char → List (List Char)
  | [] => [[]]
  | c :: cs =>
    match splitOnSlash cs with
    | [] => [[c]]
    | g :: gs => if c = '/' then [] :: g :: gs else (c :: g) :: gs

/-- Rejoin path components with `'/'`. -/
def joinSlash : List (List Char) → List Char
  | [] => []
  | [g] => g
  | g :: gs => g ++ '/' :: joinSlash gs

/-- `filepath.Base` for clean slash-separated paths. -/
def pathBase (p : String) : String :=
  String.mk ((splitOnSlash p.data).getLastD p.data)

/-- `filepath.Dir` for clean slash-separated paths. -/
def pathDir (p : String) : String :=
  let parts := splitOnSlash p.data
  if parts.length ≤ 1 then "." else String.mk (joinSlash parts.dropLast)

/-- `filepath.Join` of a directory and a name, for clean paths. -/
def pathJoin (a b : String) : String :=
  if a = "." then b else String.mk (a.data ++ '/' :: b.data)

/-- The `Manager` configuration struct. -/
structure Manager where
  RewriterBinary : String
  SuspiciousPath : String
  OutputPath : String
  TargetBinaryDir : String
  TestTimeout : String
  KeepRewritten : Bool
  ForceRewrite : Bool

/-- Path of the original source file as `CompileRewritten`/`RunTests`
recompute it (`filepath.Join(filepath.Dir(p), filepath.Base(p))`). -/
def originalFile (m : Manager) : String :=
  pathJoin (pathDir m.SuspiciousPath) (pathBase m.SuspiciousPath)

/-- `<original>.backup`, the transaction's source backup path. -/
def backupFile (m : Manager) : String :=
  pathJoin (pathDir m.SuspiciousPath) (pathBase m.SuspiciousPath ++ ".backup")

/-- `<target-dir>/<base>.new`, the staged binary the build writes. -/
def outputBinaryPath (m : Manager) : String :=
  pathJoin m.TargetBinaryDir (pathBase m.TargetBinaryDir ++ ".new")

/-- `<target-dir>/<base>`, the deployed binary path (`origBinary` in
`DeployBinary`). -/
def deployedBinaryPath (m : Manager) : String :=
  pathJoin m.TargetBinaryDir (pathBase m.TargetBinaryDir)

/-- The file the `rewriter` binary writes when the manager invokes it:
`RunRewriter` runs `exec.Command(m.RewriterBinary, "-input",
m.SuspiciousPath)` with no `-output` flag, and `cmd/rewriter/main.go`
defaults its output file to `<input> + ".rewritten.go"`.  This
coincides with `m.OutputPath` only in the default configuration. -/
def rewriterOutputPath (m : Manager) : String :=
  m.SuspiciousPath ++ ".rewritten.go"

/-- `Manager.RunRewriter`: skipped when the staged output
(`m.OutputPath`) already exists and force-rewrite is off; otherwise it
runs the external `rewriter` binary with `-input m.SuspiciousPath`.
That binary (`cmd/rewriter/main.go`) reads the input file, rewrites it
and saves the result to `rewriterOutputPath` (its defaulted `-output`);
`rewriterOut` is the run's outcome — `.error` a non-zero exit (the
binary exits 1 on read or save failure), `.ok out` a successful run
that wrote `out`. -/
def RunRewriter (m : Manager) (rewriterOut : Except String String) (fs : FS) :
    FS × Option String :=
  if !m.ForceRewrite && statExists fs m.OutputPath then
    (fs, none)
  else
    match rewriterOut with
    | .error e => (fs, some ("rewriter failed: " ++ e))
    | .ok out => (fsSet fs (rewriterOutputPath m) (some out), none)

/-- `Manager.CompileRewritten`, the disk-level transaction around the
build: (1) back the original up by rename, (2) move the staged
rewritten source onto the original path, (3) build (`buildOk`; on
success `go build -o` writes `builtBin` at the staged binary path),
(4) on success move the file at the original path back to the staging
path, (5) restore the backup.  On build failure the code only renames
the backup over the original path before returning the error. -/
def CompileRewritten (m : Manager) (buildOk : Bool) (builtBin : String) (fs : FS) :
    FS × Option String :=
  let orig := originalFile m
  let backup := backupFile m
  let rewrittenFile := m.OutputPath
  let afterBackup : Option FS :=
    if statExists fs orig then rename fs orig backup else some fs
  match afterBackup with
  | none => (fs, some "failed to backup original source file")
  | some fs1 =>
    match rename fs1 rewrittenFile orig with
    | none => (tryRename fs1 backup orig, some "failed to move rewritten source file")
    | some fs2 =>
      if !buildOk then
        (tryRename fs2 backup orig, some "compilation failed for target")
      else
        let fs3 := fsSet fs2 (outputBinaryPath m) (some builtBin)
        match rename fs3 orig rewrittenFile with
        | none =>
            (tryRename fs3 backup orig, some "failed to restore rewritten source file name")
        | some fs4 =>
          if statExists fs4 backup then
            match rename fs4 backup orig with
            | none =>
                (tryRename fs4 rewrittenFile orig,
                  some "failed to restore original source file from backup")
            | some fs5 => (fs5, none)
          else
            (fs4, none)

/-- `Manager.RunTests`: the same backup/swap around `go test`
(`testsOk`); both restore renames run regardless of the test outcome,
and their own failures are only logged, never returned. -/
def RunTests (m : Manager) (testsOk : Bool) (fs : FS) : FS × Option String :=
  let orig := originalFile m
  let backup := backupFile m
  let rewrittenFile := m.OutputPath
  let afterBackup : Option FS :=
    if statExists fs orig then rename fs orig backup else some fs
  match afterBackup with
  | none => (fs, some "failed to backup original source file for testing")
  | some fs1 =>
    match rename fs1 rewrittenFile orig with
    | none => (tryRename fs1 backup orig, some "failed to move rewritten file for testing")
    | some fs2 =>
      let fs3 := tryRename fs2 orig rewrittenFile
      let fs4 := if statExists fs3 backup then tryRename fs3 backup orig else fs3
      if testsOk then (fs4, none) else (fs4, some "tests failed on rewritten code")

/-- The pipeline stages a run can invoke, for recording which `Manager`
methods execute. -/
inductive Step where
  | rewriteStep
  | metricsStep
  | compileStep
  | testStep
  | deployStep
  | cleanupStep
deriving DecidableEq, Repr

/-- `dryRunProcess` from `cmd/manager/main.go`: runs `RunRewriter`,
`CompileRewritten` and `RunTests` in order, stopping at the first
error; it never invokes `CalculateMetrics`, `DeployBinary` or
`CleanUp`.  Returns the file system, the trace of invoked stages and
the error. -/
def dryRunProcess (m : Manager) (rewriterOut : Except String String) (buildOk : Bool)
    (builtBin : String) (testsOk : Bool) (fs : FS) : FS × List Step × Option String :=
  match RunRewriter m rewriterOut fs with
  | (fs1, some e) => (fs1, [.rewriteStep], some ("rewriter step failed: " ++ e))
  | (fs1, none) =>
    match CompileRewritten m buildOk builtBin fs1 with
    | (fs2, some e) => (fs2, [.rewriteStep, .compileStep], some ("compilation step failed: " ++ e))
    | (fs2, none) =>
      match RunTests m testsOk fs2 with
      | (fs3, some e) =>
          (fs3, [.rewriteStep, .compileStep, .testStep], some ("testing step failed: " ++ e))
      | (fs3, none) => (fs3, [.rewriteStep, .compileStep, .testStep], none)

/-! ## Concrete programs and oracles used as test inputs -/

/-- The specification's golden program shape: one function whose body is
a single `if` followed by a single loop whose body is a nested `if`;
conditions are plain identifiers or a non-short-circuit comparison, the
branch bodies are plain calls.  Parameterized over all the names and
the signature, so it covers every program of exactly this shape. -/
def goldenC7File (fn a g i n b h : String) (sig : FuncSig) : GoNode :=
  .file [.funcDecl fn none sig [] (some (.block
    [ .ifS none (.ident a) (.block [.exprStmt (.call (.ident g) [])]) none
    , .forS (some (.assignS [.ident i] [.basicLit "0"]))
        (some (.binary .other (.ident i) (.ident n)))
        (some (.assignS [.ident i] [.ident i]))
        (.block
          [.ifS none (.ident b) (.block [.exprStmt (.call (.ident h) [])]) none])]))]

/-- `func f() { for { if a { } } }`: a conditional nested one level
inside a loop body. -/
def c6File : GoNode :=
  .file [.funcDecl "f" none ⟨[], []⟩ [] (some (.block
    [.forS none none none (.block [.ifS none (.ident "a") (.block []) none])]))]

/-- A file whose single function's body is the given statement list. -/
def mkStmtsFile (ss : List GoNode) : GoNode :=
  .file [.funcDecl "f" none ⟨[], []⟩ [] (some (.block ss))]

/-- A `Manager` with the repository's default configuration
(`NewManager`). -/
def defaultManager : Manager :=
  { RewriterBinary := "rewriter"
    SuspiciousPath := "internal/suspicious/suspicious.go"
    OutputPath := "internal/suspicious/suspicious.go.rewritten.go"
    TargetBinaryDir := "cmd/suspicious"
    TestTimeout := "30s"
    KeepRewritten := true
    ForceRewrite := false }

/-- A workspace holding the original source, the staged rewritten
source, and a previously deployed binary. -/
def fsStaged : FS := fun q =>
  if q = "internal/suspicious/suspicious.go" then some "orig"
  else if q = "internal/suspicious/suspicious.go.rewritten.go" then some "rew"
  else if q = "cmd/suspicious/suspicious" then some "oldbin" else none

/-- Parse oracle that always fails. -/
def parseFail0 : String → Except String GoNode := fun _ => .error "syntax"

/-- Parse oracle that always yields an empty file. -/
def parseEmpty0 : String → Except String GoNode := fun _ => .ok (.file [])

/-- Strategy oracle that reports a change and leaves the tree alone. -/
def strategyId0 : GoNode → (Bool × GoNode) × Option String := fun g => ((true, g), none)

/-- Print oracle that always renders `"P"`. -/
def printP0 : GoNode → Except String String := fun _ => .ok "P"

/-- The signature view of a declaration: name, receiver and function
type for a `funcDecl`, nothing otherwise. -/
def sigOf : GoNode → Option (String × Option (String × String) × FuncSig)
  | .funcDecl n r s _ _ => some (n, r, s)
  | _ => none

/-- Signature views of a file's top-level declarations. -/
def fileSigs : GoNode → List (Option (String × Option (String × String) × FuncSig))
  | .file ds => ds.map sigOf
  | n => [sigOf n]

/-- What `LLMStrategy.Rewrite` does to a single declaration when the
source extraction and the service call both succeed (`pf` and `llm`
total): annotate-unchanged, annotate-unparsable, annotate-missing, or
replace the body and annotate success; non-functions and functions
without a body are untouched. -/
def processLLMFunc (pf : GoNode → String) (llm : String → String)
    (parse : String → Except String GoNode) (comment : String) : GoNode → GoNode
  | .funcDecl name recv sig doc (some body) =>
      let src := pf (.funcDecl name recv sig doc (some body))
      let rs := llm src
      if rs = src then
        .funcDecl name recv sig (doc ++ [comment ++ " (analyzed but no changes required)"])
          (some body)
      else
        match parse rs with
        | .error e =>
            .funcDecl name recv sig
              (doc ++ ["// Failed to parse rewritten function code: " ++ e]) (some body)
        | .ok rf =>
          match firstFuncDecl rf with
          | none =>
              .funcDecl name recv sig
                (doc ++ ["// Failed to find function in the rewritten code"]) (some body)
          | some g => .funcDecl name recv sig (doc ++ [comment]) (funcBody g)
  | d => d

/-- A two-function file for exercising `LLMStrategy.Rewrite`. -/
def c3File : GoNode := .file
  [ .funcDecl "f1" none ⟨[], []⟩ [] (some (.block []))
  , .funcDecl "f2" none ⟨[], []⟩ [] (some (.block []))]

/-- Source-extraction oracle that always succeeds. -/
def pfOk0 : GoNode → Except String String := fun _ => .ok "src"

/-- Service oracle that always fails (e.g. a network error — not a
rate limit). -/
def llmFail0 : String → Except String String := fun _ => .error "boom"

/-! ### Marker-comment occurrences in rendered output

Comments reach the rendered text through `go/printer.Fprint`, whose
behaviour on an `*ast.File` depends on the parse-time comment list:
`useNodeComments = (File.Comments == nil)`.  `markerCountN` below
counts marker entries in the tree's `Doc` groups;
`printedAnnotateMarkers` then models which of the mutated tree's
entries the printer actually emits.  In this model the only comment
carriers are the function declarations' `Doc` groups (a nonempty `doc`
list models a non-nil `*ast.CommentGroup`). -/

mutual

/-- Occurrences of `m` among the `Doc` comments of all function
declarations in a tree. -/
def markerCountN (m : String) : GoNode → Nat
  | .file ds => markerCountL m ds
  | .funcDecl _ _ _ d b => d.count m + markerCountO m b
  | .genDecl _ => 0
  | .block ss => markerCountL m ss
  | .ifS i c b e => markerCountO m i + markerCountN m c + markerCountN m b + markerCountO m e
  | .forS i c p b => markerCountO m i + markerCountO m c + markerCountO m p + markerCountN m b
  | .rangeS k v x b => markerCountO m k + markerCountO m v + markerCountN m x + markerCountN m b
  | .switchS i t b => markerCountO m i + markerCountO m t + markerCountN m b
  | .typeSwitchS i a b => markerCountO m i + markerCountN m a + markerCountN m b
  | .selectS b => markerCountN m b
  | .caseClause es ss => markerCountL m es + markerCountL m ss
  | .commClause c ss => markerCountO m c + markerCountL m ss
  | .branchS _ => 0
  | .returnS rs => markerCountL m rs
  | .exprStmt x => markerCountN m x
  | .assignS l r => markerCountL m l + markerCountL m r
  | .binary _ x y => markerCountN m x + markerCountN m y
  | .call f as => markerCountN m f + markerCountL m as
  | .funcLit b => markerCountN m b
  | .ident _ => 0
  | .basicLit _ => 0

def markerCountL (m : String) : List GoNode → Nat
  | [] => 0
  | n :: ns => markerCountN m n + markerCountL m ns

def markerCountO (m : String) : Option GoNode → Nat
  | none => 0
  | some n => markerCountN m n

end

mutual

/-- Number of function declarations whose `Doc` group is non-nil
(nonempty `doc` list), over the whole tree. -/
def countDocFuncsN : GoNode → Nat
  | .file ds => countDocFuncsL ds
  | .funcDecl _ _ _ d b => (if d = [] then 0 else 1) + countDocFuncsO b
  | .genDecl _ => 0
  | .block ss => countDocFuncsL ss
  | .ifS i c b e => countDocFuncsO i + countDocFuncsN c + countDocFuncsN b + countDocFuncsO e
  | .forS i c p b => countDocFuncsO i + countDocFuncsO c + countDocFuncsO p + countDocFuncsN b
  | .rangeS k v x b => countDocFuncsO k + countDocFuncsO v + countDocFuncsN x + countDocFuncsN b
  | .switchS i t b => countDocFuncsO i + countDocFuncsO t + countDocFuncsN b
  | .typeSwitchS i a b => countDocFuncsO i + countDocFuncsN a + countDocFuncsN b
  | .selectS b => countDocFuncsN b
  | .caseClause es ss => countDocFuncsL es + countDocFuncsL ss
  | .commClause c ss => countDocFuncsO c + countDocFuncsL ss
  | .branchS _ => 0
  | .returnS rs => countDocFuncsL rs
  | .exprStmt x => countDocFuncsN x
  | .assignS l r => countDocFuncsL l + countDocFuncsL r
  | .binary _ x y => countDocFuncsN x + countDocFuncsN y
  | .call f as => countDocFuncsN f + countDocFuncsL as
  | .funcLit b => countDocFuncsN b
  | .ident _ => 0
  | .basicLit _ => 0

def countDocFuncsL : List GoNode → Nat
  | [] => 0
  | n :: ns => countDocFuncsN n + countDocFuncsL ns

def countDocFuncsO : Option GoNode → Nat
  | none => 0
  | some n => countDocFuncsN n

end

/-- Whether the parsed file carries any comment (`File.Comments ≠
nil`): in this model, whether some function declaration has a non-nil
`Doc` group. -/
def hasCommentN (f : GoNode) : Bool :=
  countDocFuncsN f != 0

/-- Occurrences of the Annotate strategy's marker among the comments
`go/printer.Fprint` emits for the mutated tree `addMarkerN marker f`,
as a function of the parsed tree `f`.  `Fprint` on an `*ast.File` sets
`useNodeComments = (File.Comments == nil)`:

* a file that parsed without any comments has `File.Comments == nil`,
  so the printer takes comments from the node tree (`setComment` on
  each declaration's `Doc`) and every function's freshly created
  marker group is printed — one marker per function;
* a file with at least one comment has `File.Comments ≠ nil` and the
  printer emits exactly the parse-time comment groups.  A `Doc` group
  the strategy creates for a function that had none is not in
  `File.Comments` and is silently dropped; a parse-time `Doc` group is
  the same `*ast.CommentGroup` object referenced from `File.Comments`,
  so the marker appended to its `List` is printed with the group.  The
  printed marker occurrences are therefore the parse-time doc entries
  equal to the marker plus one appended marker per function that
  already had a doc group. -/
def printedAnnotateMarkers (marker : String) (f : GoNode) : Nat :=
  if hasCommentN f then markerCountN marker f + countDocFuncsN f
  else countFunctions f

/-- Two functions, the first with a pre-existing doc comment: a parsed
file whose comment list is non-nil. -/
def c5CommentFile : GoNode := .file
  [ .funcDecl "first" none ⟨[], []⟩ ["// first does things"] (some (.block []))
  , .funcDecl "second" none ⟨[], []⟩ [] (some (.block []))]

/-! ## Helper lemmas -/

theorem foldl_add_map_sum (g : GoNode → Int) (l : List GoNode) (c : Int) :
    l.foldl (fun acc n => acc + g n) c = c + (l.map g).sum := by
  induction l generalizing c with
  | nil => simp
  | cons x xs ih => simp [ih, add_assoc]

theorem allNodesL_append (xs ys : List GoNode) :
    allNodesL (xs ++ ys) = allNodesL xs ++ allNodesL ys := by
  induction xs with
  | nil => simp [allNodesL]
  | cons x xs ih => simp [allNodesL, ih]

/-! ## Claims -/

/-- **C7** (confirmed).  For every program of the golden shape — one
function containing a single `if` and a single loop whose body contains
a nested `if`, with no other branch constructs, short-circuit operators
or jumps — `calculateCyclomaticComplexity` returns exactly 4 and
`calculateCognitiveComplexity` returns exactly 3. -/
theorem c7_golden_complexities (fn a g i n b h : String) (sig : FuncSig) :
    calculateCyclomaticComplexity (goldenC7File fn a g i n b h sig) = 4 ∧
    calculateCognitiveComplexity (goldenC7File fn a g i n b h sig) = 3 := by
  constructor
  · simp [goldenC7File, calculateCyclomaticComplexity, allNodes, allNodesL, allNodesO,
      cycContribution]
  · have h1 : nestingLevels (goldenC7File fn a g i n b h sig) =
        [([0, 0, 0, 0, 1, 3, 0, 0], 0), ([0, 0, 0, 0, 1], 0), ([0, 0, 0, 0, 0], 0)] := by
      simp [goldenC7File, nestingLevels, preNodes, preNodesL, preNodesO, cogPass1Step,
        lookupLevel, bodySlotPath, isBranchConstruct]
    unfold calculateCognitiveComplexity
    simp only [h1]
    simp [goldenC7File, preNodes, preNodesL, preNodesO, cogContribution, lookupLevel, blockLen]

/-- **C6** (code_bug).  On `func f() { for { if a { } } }` the code
returns cognitive complexity 2, charging the nested conditional only 1:
the first pass of `calculateCognitiveComplexity` pops a construct off
the nesting stack as soon as its body block is entered, so every
construct that appears as a statement inside another construct's body
sees an empty stack and gets nesting level 0.  The claim (and the
obvious intent of the two-pass `nestingLevels` machinery) requires the
nested conditional to contribute `1 + 1 = 2` for a total of 3. -/
theorem c6_nesting_not_charged :
    calculateCognitiveComplexity c6File = 2 ∧ calculateCognitiveComplexity c6File ≠ 3 := by
  constructor
  · rfl
  · decide

/-- **C8, counterexample.**  `func f() { switch {} }` has cyclomatic
complexity 1 — the same as the function with an empty body — so a
zero-arm dispatch construct adds 0, not 1: the visitor adds
`len(arms) - 1 = -1` and then `+1` for the empty body, cancelling out. -/
theorem c8_counterexample :
    calculateCyclomaticComplexity (mkStmtsFile [.switchS none none (.block [])]) = 1 ∧
    calculateCyclomaticComplexity (mkStmtsFile []) = 1 ∧
    ¬ calculateCyclomaticComplexity (mkStmtsFile [.switchS none none (.block [])]) =
        calculateCyclomaticComplexity (mkStmtsFile []) + 1 := by
  refine ⟨rfl, rfl, ?_⟩
  decide

/-- **C8, amended** (corrected).  Every dispatch construct (switch,
type-switch, select) with zero case arms adds exactly 0 to the
cyclomatic complexity: its visitor contribution is 0, and appending a
zero-arm `switch {}` to a function body leaves
`calculateCyclomaticComplexity` unchanged. -/
theorem c8_empty_dispatch_adds_zero :
    (∀ i t, cycContribution (.switchS i t (.block [])) = 0) ∧
    (∀ i a, cycContribution (.typeSwitchS i a (.block [])) = 0) ∧
    cycContribution (.selectS (.block [])) = 0 ∧
    (∀ ss, calculateCyclomaticComplexity (mkStmtsFile (ss ++ [.switchS none none (.block [])])) =
        calculateCyclomaticComplexity (mkStmtsFile ss)) := by
  refine ⟨fun i t => rfl, fun i a => rfl, rfl, fun ss => ?_⟩
  simp [calculateCyclomaticComplexity, mkStmtsFile, allNodes, allNodesL, allNodesO,
    allNodesL_append, foldl_add_map_sum, cycContribution]

/-- **C4** (confirmed).  `Rewriter.RewriteContent` returns a `nil`
error on every input, and each failure mode yields the original content
with the corresponding appended comment: parse failure, strategy error,
no-change report, and a rendered tree identical to the input. -/
theorem c4_rewrite_content_never_errors
    (parse : String → Except String GoNode)
    (strategy : GoNode → (Bool × GoNode) × Option String)
    (print : GoNode → Except String String) (content : String) :
    (RewriteContent parse strategy print content).2 = none ∧
    (∀ e, parse content = .error e →
      RewriteContent parse strategy print content =
        (content ++ "\n\n// Failed to parse code for rewriting: " ++ e ++ "\n", none)) ∧
    (∀ f b f' e, parse content = .ok f → strategy f = ((b, f'), some e) →
      RewriteContent parse strategy print content =
        (content ++ "\n\n// Error during rewriting: " ++ e ++ "\n", none)) ∧
    (∀ f f', parse content = .ok f → strategy f = ((false, f'), none) →
      RewriteContent parse strategy print content =
        (content ++ "\n\n// No changes made by the MetamorphLLM\n", none)) ∧
    (∀ f f', parse content = .ok f → strategy f = ((true, f'), none) →
      print f' = .ok content →
      RewriteContent parse strategy print content =
        (content ++ "\n\n// Processed by MetamorphLLM (no changes needed)\n", none)) := by
  refine ⟨?_, ?_, ?_, ?_, ?_⟩
  · unfold RewriteContent
    repeat' split <;> try rfl
  · intro e h
    simp [RewriteContent, h]
  · intro f b f' e hp hs
    simp [RewriteContent, hp, hs]
  · intro f f' hp hs
    simp [RewriteContent, hp, hs]
  · intro f f' hp hs hpr
    simp [RewriteContent, hp, hs, hpr]

/-- Witness for C4: a concrete run through the parse-failure mode. -/
theorem c4_rewrite_content_never_errors_witness :
    (RewriteContent parseFail0 strategyId0 printP0 "abc").2 = none ∧
    RewriteContent parseFail0 strategyId0 printP0 "abc" =
      ("abc" ++ "\n\n// Failed to parse code for rewriting: " ++ "syntax" ++ "\n", none) :=
  ⟨(c4_rewrite_content_never_errors parseFail0 strategyId0 printP0 "abc").1,
    (c4_rewrite_content_never_errors parseFail0 strategyId0 printP0 "abc").2.1 "syntax" rfl⟩

/-- **C10** (confirmed).  When `RewriteContent` succeeds with
`changed = true` and the printed tree differs from the input, the
returned text is the rendered tree prefixed with the build-constraint
line `// +build rewritten` followed by a blank line. -/
theorem c10_build_tag_prefix
    (parse : String → Except String GoNode)
    (strategy : GoNode → (Bool × GoNode) × Option String)
    (print : GoNode → Except String String) (content : String) (f f' : GoNode) (res : String)
    (hp : parse content = .ok f) (hs : strategy f = ((true, f'), none))
    (hpr : print f' = .ok res) (hne : res ≠ content) :
    RewriteContent parse strategy print content = ("// +build rewritten\n\n" ++ res, none) := by
  simp [RewriteContent, hp, hs, hpr, hne]

/-- Witness for C10: a concrete changed run whose render differs from
the input. -/
theorem c10_build_tag_prefix_witness :
    RewriteContent parseEmpty0 strategyId0 printP0 "c" =
      ("// +build rewritten\n\n" ++ "P", none) :=
  c10_build_tag_prefix parseEmpty0 strategyId0 printP0 "c" (.file []) (.file []) "P"
    rfl rfl rfl (by decide)

/-- **C1, counterexample.**  Build failure injected in
`CompileRewritten` on the default configuration with the original and
staged files present: the claim's step (4) — moving the file at the
original path back to the staging path — does not execute, so the
staged path ends up holding nothing (the staged copy is overwritten by
the backup restore and lost); the error is still returned and the
original is restored. -/
theorem c1_counterexample :
    (CompileRewritten defaultManager false "bin" fsStaged).1 defaultManager.OutputPath = none ∧
    ¬ (CompileRewritten defaultManager false "bin" fsStaged).1 defaultManager.OutputPath
        = some "rew" ∧
    (CompileRewritten defaultManager false "bin" fsStaged).1 (originalFile defaultManager)
        = some "orig" ∧
    (CompileRewritten defaultManager false "bin" fsStaged).2 ≠ none := by
  refine ⟨rfl, ?_, rfl, ?_⟩ <;> decide

/-- **C1, amended** (corrected).  In `CompileRewritten`, once backup
and swap have succeeded: on build *success* steps (4) and (5) both
execute — the staged source is back at the staging path, the original
is restored byte-identical, the backup is gone and the built binary is
at the staged binary path; on build *failure* step (4) does **not**
execute — only the backup restore runs, which overwrites the staged
file sitting at the original path, so the original is restored
byte-identical and no staged file is left at the original path, but
the staged copy is lost (the staging path ends up empty) — and the
error is returned after the restore. -/
theorem c1_compile_rollback (m : Manager) (fs : FS) (buildOk : Bool) (con rew bin : String)
    (horig : fs (originalFile m) = some con)
    (hrew : fs m.OutputPath = some rew)
    (h1 : m.OutputPath ≠ originalFile m)
    (h2 : backupFile m ≠ originalFile m)
    (h3 : backupFile m ≠ m.OutputPath)
    (h4 : outputBinaryPath m ≠ originalFile m)
    (h5 : outputBinaryPath m ≠ m.OutputPath)
    (h6 : outputBinaryPath m ≠ backupFile m) :
    (buildOk = false →
      (CompileRewritten m buildOk bin fs).2.isSome = true ∧
      (CompileRewritten m buildOk bin fs).1 (originalFile m) = some con ∧
      (CompileRewritten m buildOk bin fs).1 (backupFile m) = none ∧
      (CompileRewritten m buildOk bin fs).1 m.OutputPath = none) ∧
    (buildOk = true →
      (CompileRewritten m buildOk bin fs).2 = none ∧
      (CompileRewritten m buildOk bin fs).1 (originalFile m) = some con ∧
      (CompileRewritten m buildOk bin fs).1 m.OutputPath = some rew ∧
      (CompileRewritten m buildOk bin fs).1 (backupFile m) = none ∧
      (CompileRewritten m buildOk bin fs).1 (outputBinaryPath m) = some bin) := by
  have h1' := Ne.symm h1
  have h2' := Ne.symm h2
  have h3' := Ne.symm h3
  have h4' := Ne.symm h4
  have h5' := Ne.symm h5
  have h6' := Ne.symm h6
  constructor
  · intro hb
    subst hb
    refine ⟨?_, ?_, ?_, ?_⟩ <;>
      simp [CompileRewritten, statExists, rename, tryRename, fsSet, horig, hrew,
        h1, h2, h3, h4, h5, h6, h1', h2', h3', h4', h5', h6']
  · intro hb
    subst hb
    refine ⟨?_, ?_, ?_, ?_, ?_⟩ <;>
      simp [CompileRewritten, statExists, rename, tryRename, fsSet, horig, hrew,
        h1, h2, h3, h4, h5, h6, h1', h2', h3', h4', h5', h6']

/-- Witness for C1 (amended): the default configuration on a staged
workspace, once with a failing and once with a succeeding build. -/
theorem c1_compile_rollback_witness :
    (CompileRewritten defaultManager false "bin" fsStaged).1 (originalFile defaultManager)
        = some "orig" ∧
    (CompileRewritten defaultManager true "bin" fsStaged).1 defaultManager.OutputPath
        = some "rew" := by
  have Hf := c1_compile_rollback defaultManager fsStaged false "orig" "rew" "bin" rfl rfl
    (by decide) (by decide) (by decide) (by decide) (by decide) (by decide)
  have Ht := c1_compile_rollback defaultManager fsStaged true "orig" "rew" "bin" rfl rfl
    (by decide) (by decide) (by decide) (by decide) (by decide) (by decide)
  exact ⟨(Hf.1 rfl).2.1, (Ht.2 rfl).2.2.1⟩

theorem llmDecls_sigs (pf : GoNode → Except String String)
    (llm : String → Except String String) (parse : String → Except String GoNode)
    (comment : String) (ds : List GoNode) :
    ∀ changed, ((llmDecls pf llm parse comment changed ds).1.2).map sigOf = ds.map sigOf := by
  induction ds with
  | nil => intro changed; simp [llmDecls]
  | cons d ds ih =>
    intro changed
    cases d
    case funcDecl name recv sig doc body =>
      cases body with
      | none => simp [llmDecls, ih]
      | some b =>
        simp only [llmDecls]
        cases hpf : pf (.funcDecl name recv sig doc (some b)) with
        | error e => simp [hpf, sigOf]
        | ok src =>
          cases hllm : llm src with
          | error e => simp [hpf, hllm, sigOf]
          | ok rs =>
            by_cases hrs : rs = src
            · simp [hpf, hllm, hrs, sigOf, ih]
            · cases hp : parse rs with
              | error e => simp [hpf, hllm, hrs, hp, sigOf, ih]
              | ok rf =>
                cases hffd : firstFuncDecl rf with
                | none => simp [hpf, hllm, hrs, hp, hffd, sigOf, ih]
                | some g => simp [hpf, hllm, hrs, hp, hffd, sigOf, ih]
    all_goals simp [llmDecls, ih]

/-- **C2** (confirmed).  `LLMStrategy.Rewrite` preserves every
declaration's signature — name, receiver and function type — for every
outcome (accepted replacement, analyzed-but-unchanged, annotated
failure, or an aborted run): only the `Body` and `Doc` fields of a
function declaration are ever assigned. -/
theorem c2_llm_signature_preserved (pf : GoNode → Except String String)
    (llm : String → Except String String) (parse : String → Except String GoNode)
    (comment : String) (f : GoNode) :
    fileSigs (LLMStrategy_Rewrite pf llm parse comment f).1.2 = fileSigs f := by
  cases f
  case file ds =>
    simp [LLMStrategy_Rewrite, fileSigs, llmDecls_sigs]
  all_goals rfl

/-- **C3, counterexample.**  With a source-extraction oracle that never
fails, a service-call failure on the first function makes
`LLMStrategy.Rewrite` return a non-nil error, and the second function
is never processed (the tree comes back exactly as it went in): a
service-call error *does* abort the remaining functions, and the
strategy returns a non-nil error in a run where source extraction
never failed. -/
theorem c3_counterexample :
    (LLMStrategy_Rewrite pfOk0 llmFail0 parseFail0 "// llm" c3File).2 ≠ none ∧
    (LLMStrategy_Rewrite pfOk0 llmFail0 parseFail0 "// llm" c3File).1.2 = c3File :=
  ⟨by decide, rfl⟩

/-- **C3, amended** (corrected).  When source extraction and the
service call always succeed, every declaration is processed
independently — an unparsable service response or a response without a
function declaration only annotates that declaration and never aborts
the rest — and the strategy returns a `nil` error; a source-extraction
failure or a service-call failure is returned as a non-nil error
(aborting the remaining declarations, as the counterexample shows). -/
theorem c3_llm_failures_do_not_abort (pf : GoNode → String) (llm : String → String)
    (parse : String → Except String GoNode) (comment : String) (ds : List GoNode) :
    (LLMStrategy_Rewrite (fun g => .ok (pf g)) (fun s => .ok (llm s)) parse comment
        (.file ds)).2 = none ∧
    (LLMStrategy_Rewrite (fun g => .ok (pf g)) (fun s => .ok (llm s)) parse comment
        (.file ds)).1.2 = .file (ds.map (processLLMFunc pf llm parse comment)) := by
  have key : ∀ changed,
      (llmDecls (fun g => .ok (pf g)) (fun s => .ok (llm s)) parse comment changed ds).2
          = none ∧
      (llmDecls (fun g => .ok (pf g)) (fun s => .ok (llm s)) parse comment changed ds).1.2
          = ds.map (processLLMFunc pf llm parse comment) := by
    induction ds with
    | nil => intro changed; simp [llmDecls]
    | cons d ds ih =>
      intro changed
      cases d
      case funcDecl name recv sig doc body =>
        cases body with
        | none => simp [llmDecls, processLLMFunc, ih]
        | some b =>
          simp only [llmDecls, processLLMFunc]
          by_cases hrs : llm (pf (.funcDecl name recv sig doc (some b)))
              = pf (.funcDecl name recv sig doc (some b))
          · simp [hrs, processLLMFunc, (ih true).1, (ih true).2]
          · cases hp : parse (llm (pf (.funcDecl name recv sig doc (some b)))) with
            | error e => simp [hrs, hp, processLLMFunc, (ih changed).1, (ih changed).2]
            | ok rf =>
              cases hffd : firstFuncDecl rf with
              | none => simp [hrs, hp, hffd, processLLMFunc, (ih changed).1, (ih changed).2]
              | some g => simp [hrs, hp, hffd, processLLMFunc, (ih true).1, (ih true).2]
      all_goals simp [llmDecls, processLLMFunc, ih]
  exact ⟨by simp [LLMStrategy_Rewrite, (key false).1],
    by simp [LLMStrategy_Rewrite, (key false).2]⟩

mutual

theorem markerCount_addN (m : String) : (f : GoNode) →
    markerCountN m (addMarkerN m f) = markerCountN m f + (allNodes f).countP isFuncDeclNode
  | .file ds => by
      simp [addMarkerN, markerCountN, allNodes, List.countP_cons, isFuncDeclNode,
        markerCount_addL m ds]
  | .funcDecl n r s d b => by
      simp [addMarkerN, addMarkerO, markerCountN, allNodes, List.countP_cons, isFuncDeclNode,
        List.count_append, markerCount_addO m b]
      omega
  | .genDecl t => by simp [addMarkerN, markerCountN, allNodes, List.countP_cons, isFuncDeclNode]
  | .block ss => by
      simp [addMarkerN, markerCountN, allNodes, List.countP_cons, isFuncDeclNode,
        markerCount_addL m ss]
  | .ifS i c b e => by
      simp [addMarkerN, addMarkerO, markerCountN, allNodes, List.countP_cons,
        List.countP_append, isFuncDeclNode, markerCount_addN m c, markerCount_addN m b,
        markerCount_addO m i, markerCount_addO m e]
      omega
  | .forS i c p b => by
      simp [addMarkerN, addMarkerO, markerCountN, allNodes, List.countP_cons,
        List.countP_append, isFuncDeclNode, markerCount_addN m b, markerCount_addO m i,
        markerCount_addO m c, markerCount_addO m p]
      omega
  | .rangeS k v x b => by
      simp [addMarkerN, addMarkerO, markerCountN, allNodes, List.countP_cons,
        List.countP_append, isFuncDeclNode, markerCount_addN m x, markerCount_addN m b,
        markerCount_addO m k, markerCount_addO m v]
      omega
  | .switchS i t b => by
      simp [addMarkerN, addMarkerO, markerCountN, allNodes, List.countP_cons,
        List.countP_append, isFuncDeclNode, markerCount_addN m b, markerCount_addO m i,
        markerCount_addO m t]
      omega
  | .typeSwitchS i a b => by
      simp [addMarkerN, addMarkerO, markerCountN, allNodes, List.countP_cons,
        List.countP_append, isFuncDeclNode, markerCount_addN m a, markerCount_addN m b,
        markerCount_addO m i]
      omega
  | .selectS b => by
      simp [addMarkerN, markerCountN, allNodes, List.countP_cons, isFuncDeclNode,
        markerCount_addN m b]
  | .caseClause es ss => by
      simp [addMarkerN, markerCountN, allNodes, List.countP_cons, List.countP_append,
        isFuncDeclNode, markerCount_addL m es, markerCount_addL m ss]
      omega
  | .commClause c ss => by
      simp [addMarkerN, addMarkerO, markerCountN, allNodes, List.countP_cons,
        List.countP_append, isFuncDeclNode, markerCount_addL m ss, markerCount_addO m c]
      omega
  | .branchS t => by simp [addMarkerN, markerCountN, allNodes, List.countP_cons, isFuncDeclNode]
  | .returnS rs => by
      simp [addMarkerN, markerCountN, allNodes, List.countP_cons, isFuncDeclNode,
        markerCount_addL m rs]
  | .exprStmt x => by
      simp [addMarkerN, markerCountN, allNodes, List.countP_cons, isFuncDeclNode,
        markerCount_addN m x]
  | .assignS l r => by
      simp [addMarkerN, markerCountN, allNodes, List.countP_cons, List.countP_append,
        isFuncDeclNode, markerCount_addL m l, markerCount_addL m r]
      omega
  | .binary op x y => by
      simp [addMarkerN, markerCountN, allNodes, List.countP_cons, List.countP_append,
        isFuncDeclNode, markerCount_addN m x, markerCount_addN m y]
      omega
  | .call f as => by
      simp [addMarkerN, markerCountN, allNodes, List.countP_cons, List.countP_append,
        isFuncDeclNode, markerCount_addN m f, markerCount_addL m as]
      omega
  | .funcLit b => by
      simp [addMarkerN, markerCountN, allNodes, List.countP_cons, isFuncDeclNode,
        markerCount_addN m b]
  | .ident s => by simp [addMarkerN, markerCountN, allNodes, List.countP_cons, isFuncDeclNode]
  | .basicLit v => by
      simp [addMarkerN, markerCountN, allNodes, List.countP_cons, isFuncDeclNode]

theorem markerCount_addL (m : String) : (l : List GoNode) →
    markerCountL m (addMarkerL m l) = markerCountL m l + (allNodesL l).countP isFuncDeclNode
  | [] => by simp [addMarkerL, markerCountL, allNodesL]
  | n :: ns => by
      simp [addMarkerL, markerCountL, allNodesL, List.countP_append,
        markerCount_addN m n, markerCount_addL m ns]
      omega

theorem markerCount_addO (m : String) : (o : Option GoNode) →
    markerCountO m (addMarkerO m o) = markerCountO m o + (allNodesO o).countP isFuncDeclNode
  | none => by simp [addMarkerO, markerCountO, allNodesO]
  | some n => by simp [addMarkerO, markerCountO, allNodesO, markerCount_addN m n]

end

/-- **C5, counterexample.**  On a two-function file whose first
function already carries a (non-marker) doc comment, the Annotate
strategy reports `changed = true` and `N = 2`, but the rendered output
contains only 1 marker occurrence, not `N`: the file's parse-time
comment list is non-nil, so `go/printer` drops the freshly created
`Doc` group of the second function. -/
theorem c5_counterexample :
    (FunctionCommentStrategy_Rewrite "// M" c5CommentFile).1.1 = true ∧
    countFunctions c5CommentFile = 2 ∧
    markerCountN "// M" c5CommentFile = 0 ∧
    printedAnnotateMarkers "// M" c5CommentFile = 1 ∧
    ¬ printedAnnotateMarkers "// M" c5CommentFile = countFunctions c5CommentFile := by
  refine ⟨rfl, rfl, ?_, ?_, ?_⟩ <;> decide

/-- **C5, amended** (corrected).  The Annotate strategy reports
`changed = true` iff the program has at least one function
declaration.  For a program that parsed without any comments (and so
without pre-existing marker occurrences), the rendered output contains
exactly `countFunctions` marker occurrences — the printer emits the
mutated tree's `Doc` entries, of which the markers are exactly one per
function.  For a program that already contains comments, the printer
emits only parse-time comment groups, so only functions with a
pre-existing doc group keep their marker and the rendered count is the
number of such functions.  Fed through `Rewriter.RewriteContent`, a
changed program whose render differs from the input comes back as the
rendered tree with the build tag. -/
theorem c5_annotate_strategy (marker : String) (f : GoNode)
    (hclean : markerCountN marker f = 0) :
    ((FunctionCommentStrategy_Rewrite marker f).1.1 = true ↔ 0 < countFunctions f) ∧
    (hasCommentN f = false →
      printedAnnotateMarkers marker f =
        markerCountN marker (FunctionCommentStrategy_Rewrite marker f).1.2 ∧
      printedAnnotateMarkers marker f = countFunctions f) ∧
    (hasCommentN f = true →
      printedAnnotateMarkers marker f = countDocFuncsN f) ∧
    (∀ (parse : String → Except String GoNode) (print : GoNode → Except String String)
        (content res : String),
      parse content = .ok f → 0 < countFunctions f →
      print (FunctionCommentStrategy_Rewrite marker f).1.2 = .ok res → res ≠ content →
      RewriteContent parse (FunctionCommentStrategy_Rewrite marker) print content =
        ("// +build rewritten\n\n" ++ res, none)) := by
  refine ⟨?_, ?_, ?_, ?_⟩
  · simp [FunctionCommentStrategy_Rewrite, countFunctions, List.any_eq_true,
      List.countP_pos_iff]
  · intro hnc
    constructor
    · simp [printedAnnotateMarkers, hnc, FunctionCommentStrategy_Rewrite,
        markerCount_addN, hclean, countFunctions]
    · simp [printedAnnotateMarkers, hnc]
  · intro hc
    simp [printedAnnotateMarkers, hc, hclean]
  · intro parse print content res hp hn hpr hne
    have hn' : 0 < (allNodes f).countP isFuncDeclNode := hn
    have hany : (allNodes f).any isFuncDeclNode = true :=
      List.any_eq_true.mpr (List.countP_pos_iff.mp hn')
    simp only [FunctionCommentStrategy_Rewrite] at hpr
    simp [RewriteContent, hp, FunctionCommentStrategy_Rewrite, hany, hpr, hne]

/-- Witness for C5 (amended): the marker-free, comment-free
two-function file, exercising the comment-free regime. -/
theorem c5_annotate_strategy_witness :
    ((FunctionCommentStrategy_Rewrite "// M" c3File).1.1 = true ↔ 0 < countFunctions c3File) ∧
    printedAnnotateMarkers "// M" c3File = countFunctions c3File := by
  have H := c5_annotate_strategy "// M" c3File rfl
  exact ⟨H.1, (H.2.1 rfl).2⟩

theorem fsSet_ne_pres (fs : FS) (q : String) (v : Option String) (p : String)
    (h : p ≠ q) : fsSet fs q v p = fs p := by
  simp [fsSet, h]

theorem rename_pres (fs : FS) (src dst : String) (fs' : FS) (p : String)
    (h : rename fs src dst = some fs') (h1 : p ≠ src) (h2 : p ≠ dst) : fs' p = fs p := by
  unfold rename at h
  cases hsrc : fs src with
  | none => rw [hsrc] at h; cases h
  | some c =>
    rw [hsrc] at h
    injection h with h
    subst h
    simp [fsSet, h1, h2]

theorem tryRename_pres (fs : FS) (src dst : String) (p : String)
    (h1 : p ≠ src) (h2 : p ≠ dst) : tryRename fs src dst p = fs p := by
  simp only [tryRename, rename]
  cases hsrc : fs src with
  | none => simp [hsrc]
  | some c => simp [hsrc, fsSet, h1, h2]

theorem backupStep_pres (fs fs1 : FS) (orig backup p : String)
    (h : (if statExists fs orig then rename fs orig backup else some fs) = some fs1)
    (h1 : p ≠ orig) (h2 : p ≠ backup) : fs1 p = fs p := by
  by_cases hs : statExists fs orig
  · rw [if_pos hs] at h
    exact rename_pres fs orig backup fs1 p h h1 h2
  · rw [if_neg hs] at h
    injection h with h
    subst h
    rfl

theorem RunRewriter_pres (m : Manager) (ro : Except String String) (fs : FS) (p : String)
    (h : p ≠ rewriterOutputPath m) : (RunRewriter m ro fs).1 p = fs p := by
  unfold RunRewriter
  split
  · rfl
  · cases ro with
    | error e => rfl
    | ok out => simp [fsSet, h]

theorem CompileRewritten_pres (m : Manager) (b : Bool) (bin : String) (fs : FS) (p : String)
    (h1 : p ≠ originalFile m) (h2 : p ≠ backupFile m) (h3 : p ≠ m.OutputPath)
    (h4 : p ≠ outputBinaryPath m) : (CompileRewritten m b bin fs).1 p = fs p := by
  simp only [CompileRewritten]
  rcases hb : (if statExists fs (originalFile m) then
      rename fs (originalFile m) (backupFile m) else some fs) with _ | fs1
  · simp [hb]
  have e1 : fs1 p = fs p := backupStep_pres fs fs1 (originalFile m) (backupFile m) p hb h1 h2
  rcases hr : rename fs1 m.OutputPath (originalFile m) with _ | fs2
  · simp [hb, hr, tryRename_pres fs1 (backupFile m) (originalFile m) p h2 h1, e1]
  have e2 : fs2 p = fs p := by
    rw [rename_pres fs1 m.OutputPath (originalFile m) fs2 p hr h3 h1]
    exact e1
  by_cases hbb : (!b) = true
  · simp [hb, hr, hbb, tryRename_pres fs2 (backupFile m) (originalFile m) p h2 h1, e2]
  have e3 : fsSet fs2 (outputBinaryPath m) (some bin) p = fs p := by
    rw [fsSet_ne_pres fs2 (outputBinaryPath m) (some bin) p h4]
    exact e2
  rcases hr4 : rename (fsSet fs2 (outputBinaryPath m) (some bin)) (originalFile m)
      m.OutputPath with _ | fs4
  · simp [hb, hr, hbb, hr4,
      tryRename_pres (fsSet fs2 (outputBinaryPath m) (some bin)) (backupFile m)
        (originalFile m) p h2 h1, e3]
  have e4 : fs4 p = fs p := by
    rw [rename_pres (fsSet fs2 (outputBinaryPath m) (some bin)) (originalFile m) m.OutputPath
      fs4 p hr4 h1 h3]
    exact e3
  by_cases hst : statExists fs4 (backupFile m) = true
  · rcases hr5 : rename fs4 (backupFile m) (originalFile m) with _ | fs5
    · simp [hb, hr, hbb, hr4, hst, hr5,
        tryRename_pres fs4 m.OutputPath (originalFile m) p h3 h1, e4]
    · have e5 : fs5 p = fs p := by
        rw [rename_pres fs4 (backupFile m) (originalFile m) fs5 p hr5 h2 h1]
        exact e4
      simp [hb, hr, hbb, hr4, hst, hr5, e5]
  · simp [hb, hr, hbb, hr4, hst, e4]

theorem RunTests_pres (m : Manager) (t : Bool) (fs : FS) (p : String)
    (h1 : p ≠ originalFile m) (h2 : p ≠ backupFile m) (h3 : p ≠ m.OutputPath) :
    (RunTests m t fs).1 p = fs p := by
  simp only [RunTests]
  rcases hb : (if statExists fs (originalFile m) then
      rename fs (originalFile m) (backupFile m) else some fs) with _ | fs1
  · simp [hb]
  have e1 : fs1 p = fs p := backupStep_pres fs fs1 (originalFile m) (backupFile m) p hb h1 h2
  rcases hr : rename fs1 m.OutputPath (originalFile m) with _ | fs2
  · simp [hb, hr, tryRename_pres fs1 (backupFile m) (originalFile m) p h2 h1, e1]
  have e2 : fs2 p = fs p := by
    rw [rename_pres fs1 m.OutputPath (originalFile m) fs2 p hr h3 h1]
    exact e1
  have e3 : tryRename fs2 (originalFile m) m.OutputPath p = fs p := by
    rw [tryRename_pres fs2 (originalFile m) m.OutputPath p h1 h3]
    exact e2
  have e4 : (if statExists (tryRename fs2 (originalFile m) m.OutputPath) (backupFile m) then
      tryRename (tryRename fs2 (originalFile m) m.OutputPath) (backupFile m) (originalFile m)
      else tryRename fs2 (originalFile m) m.OutputPath) p = fs p := by
    split
    · rw [tryRename_pres (tryRename fs2 (originalFile m) m.OutputPath) (backupFile m)
        (originalFile m) p h2 h1]
      exact e3
    · exact e3
  cases t <;> simp [hb, hr, e4]

/-- **C9, counterexample.**  A fully successful dry run on the default
configuration invokes exactly `RunRewriter`, `CompileRewritten` and
`RunTests`: the metrics stage (`CalculateMetrics`) is *not* executed,
contradicting the claim that dry-run executes the rewrite, metrics,
build and test stages. -/
theorem c9_counterexample :
    (dryRunProcess defaultManager (.ok "rw") true "bin" true fsStaged).2.1 =
      [Step.rewriteStep, Step.compileStep, Step.testStep] ∧
    Step.metricsStep ∉ (dryRunProcess defaultManager (.ok "rw") true "bin" true fsStaged).2.1 ∧
    (dryRunProcess defaultManager (.ok "rw") true "bin" true fsStaged).2.2 = none := by
  refine ⟨rfl, ?_, rfl⟩
  decide

/-- **C9, amended** (corrected).  Dry-run (`dryRunProcess`) executes
the rewrite stage and — when no stage fails — the build and test
stages, and nothing else: it never invokes `CalculateMetrics` and never
invokes `DeployBinary`, and any path other than the file the rewriter
binary writes, the staged source, the original source, its backup and
the staged binary — in particular a pre-existing deployed binary — has
the same content afterwards (the run performs no operation on such a
path at all, which in the real system also leaves its modification
time unchanged; the file-system model carries contents only). -/
theorem c9_dry_run (m : Manager) (ro : Except String String) (b : Bool) (bin : String)
    (t : Bool) (fs : FS) (p : String)
    (hp0 : p ≠ rewriterOutputPath m)
    (hp1 : p ≠ m.OutputPath) (hp2 : p ≠ originalFile m) (hp3 : p ≠ backupFile m)
    (hp4 : p ≠ outputBinaryPath m) :
    Step.deployStep ∉ (dryRunProcess m ro b bin t fs).2.1 ∧
    Step.metricsStep ∉ (dryRunProcess m ro b bin t fs).2.1 ∧
    Step.rewriteStep ∈ (dryRunProcess m ro b bin t fs).2.1 ∧
    ((dryRunProcess m ro b bin t fs).2.2 = none →
      (dryRunProcess m ro b bin t fs).2.1 =
        [Step.rewriteStep, Step.compileStep, Step.testStep]) ∧
    (dryRunProcess m ro b bin t fs).1 p = fs p := by
  rcases hR : RunRewriter m ro fs with ⟨fs1, e1⟩
  have pres1 : fs1 p = fs p := by
    have h := RunRewriter_pres m ro fs p hp0
    rw [hR] at h
    exact h
  cases e1 with
  | some e => simp [dryRunProcess, hR, pres1]
  | none =>
    rcases hC : CompileRewritten m b bin fs1 with ⟨fs2, e2⟩
    have pres2 : fs2 p = fs p := by
      have h := CompileRewritten_pres m b bin fs1 p hp2 hp3 hp1 hp4
      rw [hC] at h
      exact h.trans pres1
    cases e2 with
    | some e => simp [dryRunProcess, hR, hC, pres2]
    | none =>
      rcases hT : RunTests m t fs2 with ⟨fs3, e3⟩
      have pres3 : fs3 p = fs p := by
        have h := RunTests_pres m t fs2 p hp2 hp3 hp1
        rw [hT] at h
        exact h.trans pres2
      cases e3 with
      | some e => simp [dryRunProcess, hR, hC, hT, pres3]
      | none => simp [dryRunProcess, hR, hC, hT, pres3]

/-- Witness for C9 (amended): the default configuration, instantiated
at the deployed binary path. -/
theorem c9_dry_run_witness :
    Step.deployStep ∉ (dryRunProcess defaultManager (.ok "rw") true "bin" true fsStaged).2.1 ∧
    (dryRunProcess defaultManager (.ok "rw") true "bin" true fsStaged).1
        (deployedBinaryPath defaultManager)
      = fsStaged (deployedBinaryPath defaultManager) := by
  have H := c9_dry_run defaultManager (.ok "rw") true "bin" true fsStaged
    (deployedBinaryPath defaultManager) (by decide) (by decide) (by decide) (by decide)
    (by decide)
  exact ⟨H.1, H.2.2.2.2⟩

end Metamorph
